import Mathlib

/-!
Shallow embedding of the EVM bytecode interpreter in `src/evm/src/main.rs`
(repository `EVM-learning-basic`), together with theorems settling the
frozen claims about its specification.

Modelling conventions:
* `U256` values are `Nat`s; wrapping arithmetic is made explicit with
  `% W` where `W = 2^256`.
* Rust `usize` is 64 bits wide here; `U256::as_usize` panics when the
  value does not fit, modelled by the `castOverflow` error.
* A Rust panic is modelled as `Except.error (e, s)` where `s` is the
  interpreter state at the moment of the panic (pops that already
  happened are visible in `s`).
* `HashMap`/`HashSet` are modelled as association lists / lists with
  lookup-first semantics; only membership and lookup are observed.
* The Keccak-256 hasher is an external dependency of the program and is
  passed in as an abstract function `keccak : List Nat → Nat`.
-/

namespace EVMModel

/-- The modulus of EVM word arithmetic, 2^256. -/
def W : Nat := 2 ^ 256

/-- One more than `usize::MAX` on the 64-bit targets the program runs on. -/
def USIZE : Nat := 2 ^ 64

-- Opcode constants, mirroring the `const` items of the source.
def STOP : Nat := 0x00
def PUSH0 : Nat := 0x5F
def PUSH1 : Nat := 0x60
def PUSH32 : Nat := 0x7F
def POP : Nat := 0x50
def ADD : Nat := 0x01
def SUB : Nat := 0x03
def MUL : Nat := 0x02
def DIV : Nat := 0x04
def LT : Nat := 0x10
def GT : Nat := 0x11
def EQ : Nat := 0x14
def AND : Nat := 0x16
def OR : Nat := 0x17
def NOT : Nat := 0x19
def MSTORE : Nat := 0x52
def MSTORE8 : Nat := 0x53
def MLOAD : Nat := 0x51
def MSIZE : Nat := 0x59
def SSTORE : Nat := 0x55
def SLOAD : Nat := 0x54
def JUMPDEST : Nat := 0x5b
def JUMP : Nat := 0x56
def JUMPI : Nat := 0x57
def PC : Nat := 0x58
def BLOCKHASH : Nat := 0x40
def COINBASE : Nat := 0x41
def TIMESTAMP : Nat := 0x42
def NUMBER : Nat := 0x43
def PREVRANDAO : Nat := 0x44
def GASLIMIT : Nat := 0x45
def CHAINID : Nat := 0x46
def SELFBALANCE : Nat := 0x47
def BASEFEE : Nat := 0x48
def DUP1 : Nat := 0x80
def DUP16 : Nat := 0x8F
def SWAP1 : Nat := 0x90
def SWAP16 : Nat := 0x9F
def SHA3 : Nat := 0x20
def BALANCE : Nat := 0x31
def EXTCODESIZE : Nat := 0x3B
def EXTCODECOPY : Nat := 0x3C
def EXTCODEHASH : Nat := 0x3F
def LOG0 : Nat := 0xA0
def LOG4 : Nat := 0xA4

/-- Block context record (`struct BlockInfo`).  `H256`/`Address` fields are
kept as the `Nat` their big-endian bytes denote. -/
structure BlockInfo where
  blockhash : Nat
  coinbase : Nat
  timestamp : Nat
  number : Nat
  prevrandao : Nat
  gaslimit : Nat
  chainid : Nat
  selfbalance : Nat
  basefee : Nat
deriving DecidableEq, Repr

/-- Account record (`struct AccountInfo`). -/
structure AccountInfo where
  balance : Nat
  nonce : Nat
  storage : List (Nat × Nat)
  code : List Nat
deriving DecidableEq, Repr

/-- Log entry (`struct Log`); a topic is the `Nat` whose 32-byte big-endian
encoding is the stored `H256`. -/
structure Log where
  address : Nat
  data : List Nat
  topics : List Nat
deriving DecidableEq, Repr

/-- Interpreter state (`struct EVM`). -/
structure EVM where
  code : List Nat
  pc : Nat
  stack : List Nat
  memory : List Nat
  storage : List (Nat × Nat)
  jump_destinations : List Nat
  current_block : BlockInfo
  account_db : List (Nat × AccountInfo)
  logs : List Log
deriving DecidableEq, Repr

/-- The panic sites of the interpreter, each a distinct panic or
`expect` in the source. -/
inductive Err where
  /-- From `underflow_judge`: fewer stack elements than an opcode consumes. -/
  | stackUnderflow
  /-- From `push`: a PUSH immediate extends past the end of the code. -/
  | codeTruncated
  /-- From `jump` and `jump_i`: destination not in `jump_destinations`. -/
  | invalidJump
  /-- From `div`: division by zero. -/
  | divByZero
  /-- From `U256::as_usize` on a value `≥ 2^64`. -/
  | castOverflow
  /-- From `checked_add(...).expect(...)`: `usize` overflow when computing a
  required memory (or code) extent. -/
  | memOverflow
  /-- slice indexing `memory[a..b]` with `b` past the end of memory. -/
  | sliceOOB
  /-- From `dup` called with position 0. -/
  | invalidDup
deriving DecidableEq, Repr

/-- Handler result: `ok` new state, or a panic carrying the state at the
moment the panic was raised. -/
abbrev Hres := Except (Err × EVM) EVM

instance : DecidableEq Hres := fun a b =>
  match a, b with
  | .ok x, .ok y => decidable_of_iff (x = y) (by simp)
  | .error x, .error y => decidable_of_iff (x = y) (by simp)
  | .ok _, .error _ => isFalse (by simp)
  | .error _, .ok _ => isFalse (by simp)

/-- Big-endian value of a byte list (`U256::from_big_endian`). -/
def beVal (bs : List Nat) : Nat := bs.foldl (fun acc b => acc * 256 + b) 0

/-- Source `EVM::bytes_to_u256`: big-endian decode, keeping only the last 32
bytes when more are supplied. -/
def bytes_to_u256 (data : List Nat) : Nat :=
  if data.length ≥ 32 then beVal (data.drop (data.length - 32)) else beVal data

/-- Big-endian encoding of `v` into exactly `width` bytes
(`U256::to_big_endian` has `width = 32`). -/
def natToBeBytes : Nat → Nat → List Nat
  | 0, _ => []
  | n + 1, v => natToBeBytes n (v / 256) ++ [v % 256]

/-- Source `Vec::resize(n, 0)` guarded by `n > len`, as every resize in the
source is: extend with zero bytes, never shrink. -/
def resizeTo (mem : List Nat) (n : Nat) : List Nat :=
  if n > mem.length then mem ++ List.replicate (n - mem.length) 0 else mem

/-- Source `copy_from_slice` into `mem[off .. off + bs.length]`; call sites
guarantee the range is in bounds. -/
def writeBytes (mem : List Nat) (off : Nat) (bs : List Nat) : List Nat :=
  mem.take off ++ bs ++ mem.drop (off + bs.length)

/-- Abstract Keccak-256: external black-box dependency (`sha3` crate). -/
abbrev Keccak := List Nat → Nat

namespace EVM

/-- Source `EVM::underflow_judge` followed by the guarded continuation: panic
with `StackUnderflow` before anything is popped when fewer than `count`
elements are on the stack. -/
def underflow_judge (count : Nat) (s : EVM) (k : EVM → Hres) : Hres :=
  if s.stack.length < count then .error (.stackUnderflow, s) else k s

/-- Source `EVM::new`: scan the code for `0x5B` bytes and install the fixed
block context and account database. -/
def new (code : List Nat) : EVM :=
  { code := code
  , pc := 0
  , stack := []
  , memory := []
  , storage := []
  , jump_destinations :=
      (List.range code.length).filter (fun i => code.getD i 0 == JUMPDEST)
  , current_block :=
      { blockhash := 0x7527123fc877fe753b3122dc592671b4902ebf2b325dd2c7224a43c0cbeee3ca
      , coinbase := 0x388C818CA8B9251b393131C08a736A67ccB19297
      , timestamp := 1625900000
      , number := 17871709
      , prevrandao := 0xce124dee50136f3f93f19667fb4198c6b94eecbacfa300469e5280012757be94
      , gaslimit := 30
      , chainid := 1
      , selfbalance := 100
      , basefee := 30 }
  , account_db :=
      [(0x9bbfed6889322e016e0a02ee459d306fc19545d8,
        { balance := 100, nonce := 1, storage := [], code := [0x60, 0x00, 0x60, 0x00] })]
  , logs := [] }

/-- Source `EVM::push`: read `size` immediate bytes big-endian and push them. -/
def push (size : Nat) (s : EVM) : Hres :=
  if s.pc + size > s.code.length then .error (.codeTruncated, s)
  else
    .ok { s with
          stack := bytes_to_u256 ((s.code.drop s.pc).take size) :: s.stack,
          pc := s.pc + size }

/-- Source `EVM::pop` used as the POP opcode handler. -/
def popOp (s : EVM) : Hres :=
  underflow_judge 1 s fun s =>
    match s.stack with
    | _ :: rest => .ok { s with stack := rest }
    | _ => .error (.stackUnderflow, s)

/-- Source `EVM::add`: wrapping addition. -/
def add (s : EVM) : Hres :=
  underflow_judge 2 s fun s =>
    match s.stack with
    | a :: b :: rest => .ok { s with stack := (a + b) % W :: rest }
    | _ => .error (.stackUnderflow, s)

/-- Source `EVM::sub`: wrapping `b - a` (second pop minus first pop). -/
def sub (s : EVM) : Hres :=
  underflow_judge 2 s fun s =>
    match s.stack with
    | a :: b :: rest => .ok { s with stack := (b + (W - a % W)) % W :: rest }
    | _ => .error (.stackUnderflow, s)

/-- Source `EVM::mul`: wrapping multiplication. -/
def mul (s : EVM) : Hres :=
  underflow_judge 2 s fun s =>
    match s.stack with
    | a :: b :: rest => .ok { s with stack := (a * b) % W :: rest }
    | _ => .error (.stackUnderflow, s)

/-- Source `EVM::div`: panic on zero divisor, else floor division `b / a`. -/
def div (s : EVM) : Hres :=
  underflow_judge 2 s fun s =>
    match s.stack with
    | a :: b :: rest =>
        if a = 0 then .error (.divByZero, { s with stack := rest })
        else .ok { s with stack := b / a :: rest }
    | _ => .error (.stackUnderflow, s)

/-- Source `EVM::lt`: push 1 when `b < a`. -/
def lt (s : EVM) : Hres :=
  underflow_judge 2 s fun s =>
    match s.stack with
    | a :: b :: rest => .ok { s with stack := (if b < a then 1 else 0) :: rest }
    | _ => .error (.stackUnderflow, s)

/-- Source `EVM::gt`: push 1 when `b > a`. -/
def gt (s : EVM) : Hres :=
  underflow_judge 2 s fun s =>
    match s.stack with
    | a :: b :: rest => .ok { s with stack := (if b > a then 1 else 0) :: rest }
    | _ => .error (.stackUnderflow, s)

/-- Source `EVM::eq`: push 1 when `a = b`. -/
def eq (s : EVM) : Hres :=
  underflow_judge 2 s fun s =>
    match s.stack with
    | a :: b :: rest => .ok { s with stack := (if a = b then 1 else 0) :: rest }
    | _ => .error (.stackUnderflow, s)

/-- Source `EVM::and`: bitwise and. -/
def and (s : EVM) : Hres :=
  underflow_judge 2 s fun s =>
    match s.stack with
    | a :: b :: rest => .ok { s with stack := (Nat.land b a) :: rest }
    | _ => .error (.stackUnderflow, s)

/-- Source `EVM::or`: bitwise or. -/
def or (s : EVM) : Hres :=
  underflow_judge 2 s fun s =>
    match s.stack with
    | a :: b :: rest => .ok { s with stack := (Nat.lor b a) :: rest }
    | _ => .error (.stackUnderflow, s)

/-- Source `EVM::not`: 256-bit bitwise complement (`!a` on `U256`). -/
def not (s : EVM) : Hres :=
  underflow_judge 1 s fun s =>
    match s.stack with
    | a :: rest => .ok { s with stack := (W - 1 - a % W) :: rest }
    | _ => .error (.stackUnderflow, s)

/-- Source `EVM::mstore`: write the 32-byte big-endian encoding of `value` at
`offset`, extending memory to `offset + 32` first. -/
def mstore (s : EVM) : Hres :=
  underflow_judge 2 s fun s =>
    match s.stack with
    | offv :: value :: rest =>
        if offv ≥ USIZE then .error (.castOverflow, { s with stack := value :: rest })
        else
          let s2 : EVM := { s with stack := rest }
          if offv + 32 ≥ USIZE then .error (.memOverflow, s2)
          else
            .ok { s2 with
                  memory := writeBytes (resizeTo s2.memory (offv + 32)) offv
                    (natToBeBytes 32 value) }
    | _ => .error (.stackUnderflow, s)

/-- Source `EVM::mstore8`: write the low byte of `value` at `offset`. -/
def mstore8 (s : EVM) : Hres :=
  underflow_judge 2 s fun s =>
    match s.stack with
    | offv :: value :: rest =>
        if offv ≥ USIZE then .error (.castOverflow, { s with stack := value :: rest })
        else
          let s2 : EVM := { s with stack := rest }
          if offv + 1 ≥ USIZE then .error (.memOverflow, s2)
          else
            .ok { s2 with
                  memory := writeBytes (resizeTo s2.memory (offv + 1)) offv
                    [value % 256] }
    | _ => .error (.stackUnderflow, s)

/-- Source `EVM::mload`: read up to 32 bytes from `offset` into the tail of a
zeroed 32-byte buffer and push its big-endian value; memory untouched. -/
def mload (s : EVM) : Hres :=
  underflow_judge 1 s fun s =>
    match s.stack with
    | offv :: rest =>
        if offv ≥ USIZE then .error (.castOverflow, { s with stack := rest })
        else
          let read_length := min 32 (s.memory.length - offv)
          if 0 < read_length ∧ offv + read_length ≥ USIZE then
            .error (.memOverflow, { s with stack := rest })
          else
            let buf := List.replicate (32 - read_length) 0 ++
              (s.memory.drop offv).take read_length
            .ok { s with stack := beVal buf :: rest }
    | _ => .error (.stackUnderflow, s)

/-- Source `EVM::msize`: push the memory length. -/
def msize (s : EVM) : Hres :=
  .ok { s with stack := s.memory.length :: s.stack }

/-- Source `EVM::sstore`: insert `(key, value)`; the map is modelled as an
association list whose leftmost binding is current. -/
def sstore (s : EVM) : Hres :=
  underflow_judge 2 s fun s =>
    match s.stack with
    | key :: value :: rest =>
        .ok { s with stack := rest, storage := (key, value) :: s.storage }
    | _ => .error (.stackUnderflow, s)

/-- Source `EVM::sload`: push the stored value, or 0 when the key is absent. -/
def sload (s : EVM) : Hres :=
  underflow_judge 1 s fun s =>
    match s.stack with
    | key :: rest =>
        .ok { s with stack := ((s.storage.lookup key).getD 0) :: rest }
    | _ => .error (.stackUnderflow, s)

/-- Source `EVM::jump`. -/
def jump (s : EVM) : Hres :=
  underflow_judge 1 s fun s =>
    match s.stack with
    | dest :: rest =>
        if dest ≥ USIZE then .error (.castOverflow, { s with stack := rest })
        else if dest ∈ s.jump_destinations then
          .ok { s with stack := rest, pc := dest }
        else .error (.invalidJump, { s with stack := rest })
    | _ => .error (.stackUnderflow, s)

/-- Source `EVM::jump_i`. -/
def jump_i (s : EVM) : Hres :=
  underflow_judge 2 s fun s =>
    match s.stack with
    | dest :: cond :: rest =>
        if dest ≥ USIZE then .error (.castOverflow, { s with stack := cond :: rest })
        else if cond ≠ 0 then
          if dest ∈ s.jump_destinations then
            .ok { s with stack := rest, pc := dest }
          else .error (.invalidJump, { s with stack := rest })
        else .ok { s with stack := rest }
    | _ => .error (.stackUnderflow, s)

/-- Source `EVM::pcfn`: push the program counter (already past this opcode). -/
def pcfn (s : EVM) : Hres :=
  .ok { s with stack := s.pc :: s.stack }

/-- Source `EVM::blockhash`. -/
def blockhash (s : EVM) : Hres :=
  underflow_judge 1 s fun s =>
    match s.stack with
    | number :: rest =>
        .ok { s with stack :=
          (if number = s.current_block.number then s.current_block.blockhash else 0) :: rest }
    | _ => .error (.stackUnderflow, s)

/-- Source `EVM::coinbase`. -/
def coinbase (s : EVM) : Hres :=
  .ok { s with stack := s.current_block.coinbase :: s.stack }

/-- Source `EVM::timestamp`. -/
def timestamp (s : EVM) : Hres :=
  .ok { s with stack := s.current_block.timestamp :: s.stack }

/-- Source `EVM::number`. -/
def number (s : EVM) : Hres :=
  .ok { s with stack := s.current_block.number :: s.stack }

/-- Source `EVM::prevrandao`. -/
def prevrandao (s : EVM) : Hres :=
  .ok { s with stack := s.current_block.prevrandao :: s.stack }

/-- Source `EVM::gaslimit`. -/
def gaslimit (s : EVM) : Hres :=
  .ok { s with stack := s.current_block.gaslimit :: s.stack }

/-- Source `EVM::chainid`. -/
def chainid (s : EVM) : Hres :=
  .ok { s with stack := s.current_block.chainid :: s.stack }

/-- Source `EVM::selfbalance`. -/
def selfbalance (s : EVM) : Hres :=
  .ok { s with stack := s.current_block.selfbalance :: s.stack }

/-- Source `EVM::basefee`. -/
def basefee (s : EVM) : Hres :=
  .ok { s with stack := s.current_block.basefee :: s.stack }

/-- Source `EVM::dup`: duplicate the element `position` deep (1 = top). -/
def dup (position : Nat) (s : EVM) : Hres :=
  if position = 0 then .error (.invalidDup, s)
  else
    underflow_judge position s fun s =>
      .ok { s with stack := s.stack.getD (position - 1) 0 :: s.stack }

/-- Source `EVM::swap`: swap the top with the element `position + 1` deep. -/
def swap (position : Nat) (s : EVM) : Hres :=
  underflow_judge (position + 1) s fun s =>
    .ok { s with stack :=
      (s.stack.set 0 (s.stack.getD position 0)).set position (s.stack.getD 0 0) }

/-- Source `EVM::sha3`: extend memory to `offset + size` and hash that range. -/
def sha3 (keccak : Keccak) (s : EVM) : Hres :=
  underflow_judge 2 s fun s =>
    match s.stack with
    | offv :: sizev :: rest =>
        if offv ≥ USIZE then .error (.castOverflow, { s with stack := sizev :: rest })
        else if sizev ≥ USIZE then .error (.castOverflow, { s with stack := rest })
        else
          let s2 : EVM := { s with stack := rest }
          if offv + sizev ≥ USIZE then .error (.memOverflow, s2)
          else
            let mem := resizeTo s2.memory (offv + sizev)
            .ok { s2 with
                  memory := mem,
                  stack := keccak ((mem.drop offv).take sizev) :: rest }
    | _ => .error (.stackUnderflow, s)

/-- Popped word to account address: keep the low 20 bytes. -/
def toAddr (v : Nat) : Nat := v % 2 ^ 160

/-- Source `EVM::balance`. -/
def balance (s : EVM) : Hres :=
  underflow_judge 1 s fun s =>
    match s.stack with
    | addr :: rest =>
        .ok { s with stack :=
          (match s.account_db.lookup (toAddr addr) with
           | some acc => acc.balance
           | none => 0) :: rest }
    | _ => .error (.stackUnderflow, s)

/-- Source `EVM::extcodesize`. -/
def extcodesize (s : EVM) : Hres :=
  underflow_judge 1 s fun s =>
    match s.stack with
    | addr :: rest =>
        .ok { s with stack :=
          (match s.account_db.lookup (toAddr addr) with
           | some acc => acc.code.length
           | none => 0) :: rest }
    | _ => .error (.stackUnderflow, s)

/-- Source `EVM::extcodecopy`. -/
def extcodecopy (s : EVM) : Hres :=
  underflow_judge 4 s fun s =>
    match s.stack with
    | addr :: memoffv :: codeoffv :: lenv :: rest =>
        if memoffv ≥ USIZE then
          .error (.castOverflow, { s with stack := codeoffv :: lenv :: rest })
        else if codeoffv ≥ USIZE then
          .error (.castOverflow, { s with stack := lenv :: rest })
        else if lenv ≥ USIZE then .error (.castOverflow, { s with stack := rest })
        else
          let s2 : EVM := { s with stack := rest }
          if lenv = 0 then .ok s2
          else if memoffv + lenv ≥ USIZE then .error (.memOverflow, s2)
          else
            let mem := resizeTo s2.memory (memoffv + lenv)
            let code_slice :=
              match s.account_db.lookup (toAddr addr) with
              | some acc => acc.code
              | none => []
            if codeoffv ≥ code_slice.length then .ok { s2 with memory := mem }
            else
              let to_copy := min (code_slice.length - codeoffv) lenv
              if codeoffv + to_copy ≥ USIZE then
                .error (.memOverflow, { s2 with memory := mem })
              else
                .ok { s2 with
                      memory := writeBytes mem memoffv
                        ((code_slice.drop codeoffv).take to_copy) }
    | _ => .error (.stackUnderflow, s)

/-- Source `EVM::extcodehash`. -/
def extcodehash (keccak : Keccak) (s : EVM) : Hres :=
  underflow_judge 1 s fun s =>
    match s.stack with
    | addr :: rest =>
        .ok { s with stack :=
          (match s.account_db.lookup (toAddr addr) with
           | some acc => keccak acc.code
           | none => 0) :: rest }
    | _ => .error (.stackUnderflow, s)

/-- Source `EVM::logn`: pop offset, length, then `num_topics` topics, slice
memory without extending it, and append the log entry. -/
def logn (num_topics : Nat) (s : EVM) : Hres :=
  underflow_judge (num_topics + 2) s fun s =>
    match s.stack with
    | offv :: lenv :: rest0 =>
        if offv ≥ USIZE then .error (.castOverflow, { s with stack := lenv :: rest0 })
        else if lenv ≥ USIZE then .error (.castOverflow, { s with stack := rest0 })
        else
          let topics := rest0.take num_topics
          let s2 : EVM := { s with stack := rest0.drop num_topics }
          if offv + lenv ≥ USIZE then .error (.memOverflow, s2)
          else if offv + lenv > s.memory.length then .error (.sliceOOB, s2)
          else
            .ok { s2 with logs := s.logs ++
              [{ address := s.current_block.coinbase,
                 data := (s.memory.drop offv).take lenv,
                 topics := topics }] }
    | _ => .error (.stackUnderflow, s)

end EVM

/-- Result of one iteration of the `run` loop: continue, stop, or panic
with the state at the panic. -/
inductive Outcome where
  | ok (s : EVM)
  | halt (s : EVM)
  | err (e : Err) (s : EVM)
deriving DecidableEq, Repr

/-- Lift a handler result into a loop outcome. -/
def liftH : Hres → Outcome
  | .ok s => .ok s
  | .error (e, s) => .err e s

/-- The state carried by an outcome. -/
def Outcome.state : Outcome → EVM
  | .ok s => s
  | .halt s => s
  | .err _ s => s

/-- Dispatch of one fetched opcode byte `op` against the state `s1` in
which `pc` has already advanced past the opcode: the `match` of
`EVM::run`, arms in source order.  Unknown opcodes fall through to the
final arm, which only prints. -/
def stepOp (keccak : Keccak) (op : Nat) (s1 : EVM) : Outcome :=
  if op = STOP then .halt s1
    else if PUSH1 ≤ op ∧ op ≤ PUSH32 then liftH (EVM.push (op - PUSH1 + 1) s1)
    else if op = PUSH0 then .ok { s1 with stack := 0 :: s1.stack }
    else if op = POP then liftH (EVM.popOp s1)
    else if op = ADD then liftH (EVM.add s1)
    else if op = SUB then liftH (EVM.sub s1)
    else if op = MUL then liftH (EVM.mul s1)
    else if op = DIV then liftH (EVM.div s1)
    else if op = LT then liftH (EVM.lt s1)
    else if op = GT then liftH (EVM.gt s1)
    else if op = EQ then liftH (EVM.eq s1)
    else if op = AND then liftH (EVM.and s1)
    else if op = OR then liftH (EVM.or s1)
    else if op = NOT then liftH (EVM.not s1)
    else if op = MSTORE then liftH (EVM.mstore s1)
    else if op = MSTORE8 then liftH (EVM.mstore8 s1)
    else if op = MLOAD then liftH (EVM.mload s1)
    else if op = MSIZE then liftH (EVM.msize s1)
    else if op = SSTORE then liftH (EVM.sstore s1)
    else if op = SLOAD then liftH (EVM.sload s1)
    else if op = JUMPDEST then .ok s1
    else if op = JUMP then liftH (EVM.jump s1)
    else if op = JUMPI then liftH (EVM.jump_i s1)
    else if op = PC then liftH (EVM.pcfn s1)
    else if op = BLOCKHASH then liftH (EVM.blockhash s1)
    else if op = COINBASE then liftH (EVM.coinbase s1)
    else if op = TIMESTAMP then liftH (EVM.timestamp s1)
    else if op = NUMBER then liftH (EVM.number s1)
    else if op = PREVRANDAO then liftH (EVM.prevrandao s1)
    else if op = GASLIMIT then liftH (EVM.gaslimit s1)
    else if op = CHAINID then liftH (EVM.chainid s1)
    else if op = SELFBALANCE then liftH (EVM.selfbalance s1)
    else if op = BASEFEE then liftH (EVM.basefee s1)
    else if DUP1 ≤ op ∧ op ≤ DUP16 then liftH (EVM.dup (op - DUP1 + 1) s1)
    else if SWAP1 ≤ op ∧ op ≤ SWAP16 then liftH (EVM.swap (op - SWAP1 + 1) s1)
    else if op = SHA3 then liftH (EVM.sha3 keccak s1)
    else if op = BALANCE then liftH (EVM.balance s1)
    else if op = EXTCODESIZE then liftH (EVM.extcodesize s1)
    else if op = EXTCODECOPY then liftH (EVM.extcodecopy s1)
    else if op = EXTCODEHASH then liftH (EVM.extcodehash keccak s1)
  else if LOG0 ≤ op ∧ op < LOG4 then liftH (EVM.logn (op - LOG0) s1)
  else .ok s1

/-- One iteration of `EVM::run`: `next_instruction` (halting at the end
of the code) followed by the dispatch. -/
def step (keccak : Keccak) (s : EVM) : Outcome :=
  if s.pc < s.code.length then
    stepOp keccak (s.code.getD s.pc 0) { s with pc := s.pc + 1 }
  else .halt s

/-- Fuelled `EVM::run` loop. -/
def run (keccak : Keccak) : Nat → EVM → Outcome
  | 0, s => .ok s
  | fuel + 1, s =>
      match step keccak s with
      | .ok s' => run keccak fuel s'
      | .halt s' => .halt s'
      | .err e s' => .err e s'

/-- The opcodes handled by a dispatch arm other than the default
"unsupported" arm, with the conditions written exactly as in `step`. -/
def implemented (op : Nat) : Prop :=
  op = STOP ∨ (PUSH1 ≤ op ∧ op ≤ PUSH32) ∨ op = PUSH0 ∨ op = POP ∨ op = ADD ∨
  op = SUB ∨ op = MUL ∨ op = DIV ∨ op = LT ∨ op = GT ∨ op = EQ ∨ op = AND ∨
  op = OR ∨ op = NOT ∨ op = MSTORE ∨ op = MSTORE8 ∨ op = MLOAD ∨ op = MSIZE ∨
  op = SSTORE ∨ op = SLOAD ∨ op = JUMPDEST ∨ op = JUMP ∨ op = JUMPI ∨ op = PC ∨
  op = BLOCKHASH ∨ op = COINBASE ∨ op = TIMESTAMP ∨ op = NUMBER ∨
  op = PREVRANDAO ∨ op = GASLIMIT ∨ op = CHAINID ∨ op = SELFBALANCE ∨
  op = BASEFEE ∨ (DUP1 ≤ op ∧ op ≤ DUP16) ∨ (SWAP1 ≤ op ∧ op ≤ SWAP16) ∨
  op = SHA3 ∨ op = BALANCE ∨ op = EXTCODESIZE ∨ op = EXTCODECOPY ∨
  op = EXTCODEHASH ∨ (LOG0 ≤ op ∧ op < LOG4)

instance (op : Nat) : Decidable (implemented op) := by
  unfold implemented; infer_instance

/-- The bytecode hard-coded in `main`. -/
def demoCode : List Nat :=
  [0x60, 0xaa, 0x60, 0x00, 0x52, 0x60, 0x11, 0x60, 0x01, 0x60, 0x1f, 0xA1]

/-- A concrete hash function standing in for Keccak-256 where the digest
value is irrelevant. -/
def k0 : Keccak := fun _ => 0


/-- State carried by a handler result (the post state, or the state at
the panic). -/
def hstate : Hres → EVM
  | .ok s => s
  | .error (_, s) => s

/-- Whether a handler result is a success. -/
def isOkH : Hres → Bool
  | .ok _ => true
  | .error _ => false

lemma liftH_state (r : Hres) : (liftH r).state = hstate r := by
  cases r with
  | ok s => rfl
  | error p => cases p; rfl

lemma underflow_judge_lt {s : EVM} {n : Nat} (k : EVM → Hres)
    (h : s.stack.length < n) :
    EVM.underflow_judge n s k = .error (.stackUnderflow, s) := by
  unfold EVM.underflow_judge
  rw [if_pos h]

lemma underflow_judge_ge {s : EVM} {n : Nat} (k : EVM → Hres)
    (h : n ≤ s.stack.length) :
    EVM.underflow_judge n s k = k s := by
  unfold EVM.underflow_judge
  rw [if_neg (by omega)]

lemma beVal_replicate_zero_append (k : Nat) (bs : List Nat) :
    beVal (List.replicate k 0 ++ bs) = beVal bs := by
  induction k with
  | zero => rfl
  | succ k ih =>
    rw [List.replicate_succ, List.cons_append]
    show (List.replicate k 0 ++ bs).foldl (fun acc b => acc * 256 + b) (0 * 256 + 0) =
      beVal bs
    simpa [beVal] using ih

lemma beVal_foldl_lt (bs : List Nat) :
    ∀ acc : Nat, (∀ b ∈ bs, b < 256) →
      bs.foldl (fun acc b => acc * 256 + b) acc < (acc + 1) * 256 ^ bs.length := by
  induction bs with
  | nil => intro acc _; simp
  | cons b bs ih =>
    intro acc hb
    have hb0 : b < 256 := hb b (List.mem_cons_self b bs)
    have htail : ∀ x ∈ bs, x < 256 := fun x hx => hb x (List.mem_cons_of_mem b hx)
    have h1 := ih (acc * 256 + b) htail
    have h2 : (acc * 256 + b + 1) * 256 ^ bs.length ≤ (acc + 1) * 256 ^ (bs.length + 1) := by
      have : acc * 256 + b + 1 ≤ (acc + 1) * 256 := by nlinarith
      calc (acc * 256 + b + 1) * 256 ^ bs.length
          ≤ (acc + 1) * 256 * 256 ^ bs.length := Nat.mul_le_mul_right _ this
        _ = (acc + 1) * 256 ^ (bs.length + 1) := by ring
    simpa [List.foldl_cons, List.length_cons] using lt_of_lt_of_le h1 h2

lemma beVal_lt (bs : List Nat) (hb : ∀ b ∈ bs, b < 256) :
    beVal bs < 256 ^ bs.length := by
  simpa [beVal] using beVal_foldl_lt bs 0 hb

lemma bytes_to_u256_eq_beVal (data : List Nat) (h : data.length ≤ 32) :
    bytes_to_u256 data = beVal data := by
  unfold bytes_to_u256
  split
  · next h32 =>
    have : data.length = 32 := le_antisymm h h32
    simp [this]
  · rfl

lemma take_min_length (xs : List Nat) (n : Nat) :
    xs.take (min n xs.length) = xs.take n := by
  rcases le_total n xs.length with h | h
  · rw [min_eq_left h]
  · rw [min_eq_right h, List.take_length, List.take_of_length_le h]

lemma length_resizeTo (mem : List Nat) (n : Nat) :
    (resizeTo mem n).length = max mem.length n := by
  unfold resizeTo
  split <;> simp <;> omega

lemma le_length_writeBytes (mem : List Nat) (off : Nat) (bs : List Nat) :
    mem.length ≤ (writeBytes mem off bs).length := by
  simp [writeBytes]
  omega

section ClaimC1

/-- Claim C1: with at least two stack elements, `a` the first pop and `b`
the second, ADD pushes `(a + b) mod 2^256`, SUB pushes `(b - a) mod 2^256`,
MUL pushes `(a * b) mod 2^256`, and DIV pushes `floor (b / a)` for nonzero
`a` while `a = 0` raises the fatal division-by-zero panic instead of
pushing 0. -/
theorem c1_arith_semantics (s : EVM) (a b : Nat) (rest : List Nat)
    (hs : s.stack = a :: b :: rest) (ha : a < W) (hb : b < W) :
    EVM.add s = .ok { s with stack := ((a + b) % W) :: rest } ∧
    (∃ d, EVM.sub s = .ok { s with stack := d :: rest } ∧
      (d : ℤ) = ((b : ℤ) - (a : ℤ)) % ((W : ℤ))) ∧
    EVM.mul s = .ok { s with stack := ((a * b) % W) :: rest } ∧
    (a ≠ 0 → EVM.div s = .ok { s with stack := (b / a) :: rest }) ∧
    (a = 0 → EVM.div s = .error (.divByZero, { s with stack := rest })) := by
  have hlen : 2 ≤ s.stack.length := by rw [hs]; simp
  refine ⟨?_, ⟨(b + (W - a % W)) % W, ?_, ?_⟩, ?_, ?_, ?_⟩
  · unfold EVM.add EVM.underflow_judge
    rw [if_neg (by omega)]
    simp only [hs]
  · unfold EVM.sub EVM.underflow_judge
    rw [if_neg (by omega)]
    simp only [hs]
  · rw [Nat.mod_eq_of_lt ha]
    push_cast [Nat.cast_sub ha.le]
    have h1 : (b : ℤ) + ((W : ℤ) - (a : ℤ)) = ((b : ℤ) - (a : ℤ)) + (W : ℤ) * 1 := by
      ring
    rw [h1, Int.add_mul_emod_self_left]
  · unfold EVM.mul EVM.underflow_judge
    rw [if_neg (by omega)]
    simp only [hs]
  · intro hne
    unfold EVM.div EVM.underflow_judge
    rw [if_neg (by omega)]
    simp only [hs]
    rw [if_neg hne]
  · intro hzero
    unfold EVM.div EVM.underflow_judge
    rw [if_neg (by omega)]
    simp only [hs]
    rw [if_pos hzero]

/-- Witness for C1 at the stack `[3, 7]` (top = 3). -/
theorem c1_arith_semantics_witness :
    EVM.add { EVM.new [] with stack := [3, 7] } =
      .ok { { EVM.new [] with stack := [3, 7] } with stack := [(3 + 7) % W] } ∧
    EVM.div { EVM.new [] with stack := [3, 7] } =
      .ok { { EVM.new [] with stack := [3, 7] } with stack := [7 / 3] } := by
  have h := c1_arith_semantics { EVM.new [] with stack := [3, 7] } 3 7 []
    rfl (by norm_num [W]) (by norm_num [W])
  exact ⟨h.1, h.2.2.2.1 (by norm_num)⟩

end ClaimC1

section ClaimC2

/-- Counterexample to claim C2: running the hard-coded bytecode produces
one log entry with topics `[0x11]` and data `[0xaa]`, not topics `[0x1f]`
with data `[0x11]` as the claim states (LOG1 pops the memory offset first,
so `0x1f` is the offset, `0x01` the length and `0x11` the topic). -/
theorem c2_log1_demo_counterexample :
    ((run k0 20 (EVM.new demoCode)).state.logs.map (fun l => (l.topics, l.data))
        = [([0x11], [0xaa])]) ∧
    ¬ ((run k0 20 (EVM.new demoCode)).state.logs.map (fun l => (l.topics, l.data))
        = [([0x1f], [0x11])]) := by
  constructor <;> decide

/-- Claim C2 amended: running the hard-coded bytecode on a fresh VM
terminates normally with exactly one log entry whose topics list is
`[0x11]` (one 32-byte topic) and whose data is the single byte `0xaa`. -/
theorem c2_log1_demo_amended :
    run k0 20 (EVM.new demoCode) =
      .halt { EVM.new demoCode with
              pc := 12,
              memory := List.replicate 31 0 ++ [0xaa],
              logs := [{ address := (EVM.new demoCode).current_block.coinbase,
                         data := [0xaa], topics := [0x11] }] } := by
  decide

end ClaimC2

lemma mem_new_jump_destinations (code : List Nat) (i : Nat) :
    i ∈ (EVM.new code).jump_destinations ↔
      i < code.length ∧ code.getD i 0 = JUMPDEST := by
  simp [EVM.new, List.mem_filter, List.mem_range, beq_iff_eq]

section ClaimC4

/-- Claim C4: the jump-destination set computed at construction is exactly
the set of indices whose code byte is `0x5B` (the scan does not skip PUSH
immediates), and consequently a JUMP or JUMPI of a VM whose
`jump_destinations` field is the constructed scan never sets `pc` to an
index whose byte in the code is not `0x5B`. -/
theorem c4_jumpdest_scan (code : List Nat) (i : Nat) (s : EVM) :
    (i ∈ (EVM.new code).jump_destinations ↔
      i < code.length ∧ code.getD i 0 = JUMPDEST) ∧
    (s.jump_destinations = (EVM.new s.code).jump_destinations →
      ∀ s' : EVM,
        (EVM.jump s = .ok s' → s'.code.getD s'.pc 0 = JUMPDEST) ∧
        (EVM.jump_i s = .ok s' →
          s'.pc = s.pc ∨ s'.code.getD s'.pc 0 = JUMPDEST)) := by
  refine ⟨mem_new_jump_destinations code i, fun hjd s' => ⟨?_, ?_⟩⟩
  · intro hok
    rcases hstack : s.stack with _ | ⟨dest, rest⟩
    · unfold EVM.jump at hok
      rw [underflow_judge_lt _ (by rw [hstack]; simp)] at hok
      simp at hok
    · unfold EVM.jump at hok
      rw [underflow_judge_ge _ (by rw [hstack]; simp)] at hok
      simp only [hstack] at hok
      split_ifs at hok with h1 h2
      all_goals simp at hok
      subst hok
      show s.code.getD dest 0 = JUMPDEST
      refine ((mem_new_jump_destinations s.code dest).mp ?_).2
      rw [← hjd]
      assumption
  · intro hok
    rcases hstack : s.stack with _ | ⟨dest, _ | ⟨cond, rest⟩⟩
    · unfold EVM.jump_i at hok
      rw [underflow_judge_lt _ (by rw [hstack]; simp)] at hok
      simp at hok
    · unfold EVM.jump_i at hok
      rw [underflow_judge_lt _ (by rw [hstack]; simp)] at hok
      simp at hok
    · unfold EVM.jump_i at hok
      rw [underflow_judge_ge _ (by rw [hstack]; simp)] at hok
      simp only [hstack] at hok
      split_ifs at hok with h1 h2 h3
      all_goals simp at hok
      all_goals subst hok
      all_goals first
        | exact Or.inl rfl
        | (right
           show s.code.getD dest 0 = JUMPDEST
           refine ((mem_new_jump_destinations s.code dest).mp ?_).2
           rw [← hjd]
           assumption)

end ClaimC4

section ClaimC3

/-- Counterexample to claim C3: the claim quantifies over every popped
`dest` value "including values exceeding the native index width", but for
`dest = 2^64` the code panics inside `U256::as_usize` (a cast-overflow
panic, not the `InvalidJump` panic), and JUMPI does so before even
reading `cond` — so with `cond = 0` it does not fall through. -/
theorem c3_jumpi_castoverflow_counterexample :
    EVM.jump_i { EVM.new [0x5b] with stack := [USIZE, 0] } =
      .error (.castOverflow, { EVM.new [0x5b] with stack := [0] }) ∧
    isOkH (EVM.jump_i { EVM.new [0x5b] with stack := [USIZE, 0] }) = false ∧
    EVM.jump { EVM.new [0x5b] with stack := [USIZE] } ≠
      .error (.invalidJump, { EVM.new [0x5b] with stack := [] }) := by
  refine ⟨by decide, by decide, by decide⟩

/-- Claim C3 amended: for every popped `dest` that fits the native index
width, JUMP sets `pc = dest` when `dest` is in the pre-scanned set and
fails with `InvalidJump` otherwise; JUMPI pops `dest` then `cond` and for
nonzero `cond` behaves as JUMP while for `cond = 0` it consumes both
operands and leaves `pc` unchanged.  A `dest` of at least `2^64` instead
aborts both JUMP and JUMPI with the `as_usize` cast panic, in JUMPI even
before `cond` is inspected. -/
theorem c3_jump_validation_amended (s : EVM) (dest cond : Nat) (rest : List Nat) :
    (s.stack = dest :: rest → dest < USIZE →
      (dest ∈ s.jump_destinations →
        EVM.jump s = .ok { s with stack := rest, pc := dest }) ∧
      (dest ∉ s.jump_destinations →
        EVM.jump s = .error (.invalidJump, { s with stack := rest }))) ∧
    (s.stack = dest :: rest → USIZE ≤ dest →
      EVM.jump s = .error (.castOverflow, { s with stack := rest })) ∧
    (s.stack = dest :: cond :: rest → dest < USIZE →
      (cond ≠ 0 → dest ∈ s.jump_destinations →
        EVM.jump_i s = .ok { s with stack := rest, pc := dest }) ∧
      (cond ≠ 0 → dest ∉ s.jump_destinations →
        EVM.jump_i s = .error (.invalidJump, { s with stack := rest })) ∧
      (cond = 0 → EVM.jump_i s = .ok { s with stack := rest })) ∧
    (s.stack = dest :: cond :: rest → USIZE ≤ dest →
      EVM.jump_i s = .error (.castOverflow, { s with stack := cond :: rest })) := by
  refine ⟨fun hs hlt => ⟨fun hmem => ?_, fun hmem => ?_⟩,
          fun hs hge => ?_,
          fun hs hlt => ⟨fun hc hmem => ?_, fun hc hmem => ?_, fun hcz => ?_⟩,
          fun hs hge => ?_⟩
  · unfold EVM.jump
    rw [underflow_judge_ge _ (by rw [hs]; simp)]
    simp only [hs]
    rw [if_neg (by omega), if_pos hmem]
  · unfold EVM.jump
    rw [underflow_judge_ge _ (by rw [hs]; simp)]
    simp only [hs]
    rw [if_neg (by omega), if_neg hmem]
  · unfold EVM.jump
    rw [underflow_judge_ge _ (by rw [hs]; simp)]
    simp only [hs]
    rw [if_pos (by omega)]
  · unfold EVM.jump_i
    rw [underflow_judge_ge _ (by rw [hs]; simp)]
    simp only [hs]
    rw [if_neg (by omega), if_pos hc, if_pos hmem]
  · unfold EVM.jump_i
    rw [underflow_judge_ge _ (by rw [hs]; simp)]
    simp only [hs]
    rw [if_neg (by omega), if_pos hc, if_neg hmem]
  · unfold EVM.jump_i
    rw [underflow_judge_ge _ (by rw [hs]; simp)]
    simp only [hs]
    rw [if_neg (by omega), if_neg (fun h => h hcz)]
  · unfold EVM.jump_i
    rw [underflow_judge_ge _ (by rw [hs]; simp)]
    simp only [hs]
    rw [if_pos (by omega)]

/-- Witness for the amended C3: a taken JUMP to offset 0 of code `[0x5b]`
and a fall-through JUMPI with `cond = 0`. -/
theorem c3_jump_validation_amended_witness :
    EVM.jump { EVM.new [0x5b] with stack := [0] } =
      .ok { { EVM.new [0x5b] with stack := [0] } with stack := [], pc := 0 } ∧
    EVM.jump_i { EVM.new [0x5b] with stack := [3, 0] } =
      .ok { { EVM.new [0x5b] with stack := [3, 0] } with stack := [] } := by
  have h1 := c3_jump_validation_amended { EVM.new [0x5b] with stack := [0] } 0 0 []
  have h2 := c3_jump_validation_amended { EVM.new [0x5b] with stack := [3, 0] } 3 0 []
  exact ⟨(h1.1 rfl (by decide)).1 (by decide), (h2.2.2.1 rfl (by decide)).2.2 rfl⟩

end ClaimC3

section ClaimC4W

/-- Witness for C4: offset 0 of code `[0x5b]` is in the scanned set, and
a JUMP that lands there lands on a `0x5B` byte. -/
theorem c4_jumpdest_scan_witness :
    (0 ∈ (EVM.new [0x5b]).jump_destinations) ∧
    (EVM.new [0x5b]).code.getD 0 0 = JUMPDEST := by
  have h := c4_jumpdest_scan [0x5b] 0 { EVM.new [0x5b] with stack := [0] }
  refine ⟨(h.1).mpr (by decide), ?_⟩
  exact (h.2 (by decide) { EVM.new [0x5b] with stack := [], pc := 0 }).1 (by decide)

end ClaimC4W

section ClaimC6

/-- Claim C6: every handler of an implemented opcode that consumes `N`
stack values checks for underflow before popping anything: with fewer
than `N` values it fails with `StackUnderflow` and the state carried by
the panic is exactly the state the handler received — stack, memory,
storage and logs untouched. -/
theorem c6_stack_underflow (keccak : Keccak) (s : EVM) :
    (s.stack.length < 1 →
      EVM.popOp s = .error (.stackUnderflow, s) ∧
      EVM.not s = .error (.stackUnderflow, s) ∧
      EVM.mload s = .error (.stackUnderflow, s) ∧
      EVM.sload s = .error (.stackUnderflow, s) ∧
      EVM.jump s = .error (.stackUnderflow, s) ∧
      EVM.blockhash s = .error (.stackUnderflow, s) ∧
      EVM.balance s = .error (.stackUnderflow, s) ∧
      EVM.extcodesize s = .error (.stackUnderflow, s) ∧
      EVM.extcodehash keccak s = .error (.stackUnderflow, s)) ∧
    (s.stack.length < 2 →
      EVM.add s = .error (.stackUnderflow, s) ∧
      EVM.sub s = .error (.stackUnderflow, s) ∧
      EVM.mul s = .error (.stackUnderflow, s) ∧
      EVM.div s = .error (.stackUnderflow, s) ∧
      EVM.lt s = .error (.stackUnderflow, s) ∧
      EVM.gt s = .error (.stackUnderflow, s) ∧
      EVM.eq s = .error (.stackUnderflow, s) ∧
      EVM.and s = .error (.stackUnderflow, s) ∧
      EVM.or s = .error (.stackUnderflow, s) ∧
      EVM.mstore s = .error (.stackUnderflow, s) ∧
      EVM.mstore8 s = .error (.stackUnderflow, s) ∧
      EVM.sstore s = .error (.stackUnderflow, s) ∧
      EVM.jump_i s = .error (.stackUnderflow, s) ∧
      EVM.sha3 keccak s = .error (.stackUnderflow, s)) ∧
    (s.stack.length < 4 → EVM.extcodecopy s = .error (.stackUnderflow, s)) ∧
    (∀ p : Nat, 1 ≤ p → s.stack.length < p →
      EVM.dup p s = .error (.stackUnderflow, s)) ∧
    (∀ p : Nat, s.stack.length < p + 1 →
      EVM.swap p s = .error (.stackUnderflow, s)) ∧
    (∀ n : Nat, s.stack.length < n + 2 →
      EVM.logn n s = .error (.stackUnderflow, s)) := by
  refine ⟨fun h => ⟨?_, ?_, ?_, ?_, ?_, ?_, ?_, ?_, ?_⟩,
          fun h => ⟨?_, ?_, ?_, ?_, ?_, ?_, ?_, ?_, ?_, ?_, ?_, ?_, ?_, ?_⟩,
          fun h => ?_, fun p hp h => ?_, fun p h => ?_, fun n h => ?_⟩
  all_goals first
    | exact underflow_judge_lt _ h
    | (unfold EVM.dup
       rw [if_neg (by omega)]
       exact underflow_judge_lt _ h)

/-- Witness for C6 on the empty stack of a fresh VM. -/
theorem c6_stack_underflow_witness :
    EVM.add (EVM.new []) = .error (.stackUnderflow, EVM.new []) ∧
    EVM.logn 1 (EVM.new []) = .error (.stackUnderflow, EVM.new []) := by
  have h := c6_stack_underflow k0 (EVM.new [])
  exact ⟨(h.2.1 (by decide)).1, h.2.2.2.2.2 1 (by decide)⟩

end ClaimC6

section ClaimC7

/-- Counterexample to claim C7: with memory `[0x01]` and offset 0 only
one byte exists beyond the offset.  Zero-extension **on the right** would
make MLOAD push `0x01 * 2^248`; the code copies the available bytes into
the **tail** of the 32-byte buffer (zero-extension on the left) and
pushes `1`. -/
theorem c7_mload_pad_counterexample :
    EVM.mload { EVM.new [] with memory := [1], stack := [0] } =
      .ok { { EVM.new [] with memory := [1], stack := [0] } with stack := [1] } ∧
    EVM.mload { EVM.new [] with memory := [1], stack := [0] } ≠
      .ok { { EVM.new [] with memory := [1], stack := [0] } with
            stack := [2 ^ 248] } := by
  exact ⟨by decide, by decide⟩

/-- Claim C7 amended: for every offset below the native index width,
MLOAD pushes the big-endian value of the bytes `memory[offset ..
min (offset + 32) len]` — the 32-byte read buffer is zero-extended on the
**left**, so the available bytes are the low-order bytes — and leaves the
memory vector (length and contents) completely unchanged, never growing
it, even when the offset is at or past the current memory length. -/
theorem c7_mload_amended (s : EVM) (offv : Nat) (rest : List Nat)
    (hs : s.stack = offv :: rest) (hoff : offv < USIZE)
    (hmem : s.memory.length < USIZE) :
    EVM.mload s =
      .ok { s with stack := beVal ((s.memory.drop offv).take 32) :: rest } := by
  unfold EVM.mload
  rw [underflow_judge_ge _ (by rw [hs]; simp)]
  simp only [hs]
  rw [if_neg (by omega)]
  rw [if_neg ?hcond]
  case hcond =>
    rintro ⟨hpos, hge⟩
    omega
  rw [beVal_replicate_zero_append]
  rw [show min 32 (s.memory.length - offv) = min 32 ((s.memory.drop offv).length)
        by simp, take_min_length]

/-- Witness for the amended C7: an MLOAD entirely past the end of empty
memory pushes 0 and leaves memory empty. -/
theorem c7_mload_amended_witness :
    EVM.mload { EVM.new [] with stack := [7] } =
      .ok { { EVM.new [] with stack := [7] } with
            stack := beVal ((({ EVM.new [] with stack := [7] } : EVM).memory.drop
              7).take 32) :: [] } :=
  c7_mload_amended { EVM.new [] with stack := [7] } 7 [] rfl (by decide) (by decide)

end ClaimC7

section ClaimC10

/-- Claim C10: a LOGn whose `offset + length` exceeds the current memory
length aborts: no log entry is appended and memory is neither extended
nor zero-padded.  When offset, length and their sum fit the native index
width the abort is precisely the out-of-bounds slice panic. -/
theorem c10_logn_oob (s : EVM) (n offv lenv : Nat) (rest : List Nat)
    (hn : n ≤ 3) (hs : s.stack = offv :: lenv :: rest) (htn : n ≤ rest.length)
    (hoob : s.memory.length < offv + lenv) :
    ∃ e s2, EVM.logn n s = .error (e, s2) ∧ s2.memory = s.memory ∧
      s2.logs = s.logs ∧
      (offv < USIZE → lenv < USIZE → offv + lenv < USIZE → e = .sliceOOB) := by
  unfold EVM.logn
  rw [underflow_judge_ge _ (by rw [hs]; simp; omega)]
  simp only [hs]
  by_cases h1 : offv ≥ USIZE
  · rw [if_pos h1]
    exact ⟨.castOverflow, _, rfl, rfl, rfl, fun hf _ _ => absurd h1 (by omega)⟩
  · rw [if_neg h1]
    by_cases h2 : lenv ≥ USIZE
    · rw [if_pos h2]
      exact ⟨.castOverflow, _, rfl, rfl, rfl, fun _ hf _ => absurd h2 (by omega)⟩
    · rw [if_neg h2]
      by_cases h3 : offv + lenv ≥ USIZE
      · rw [if_pos h3]
        exact ⟨.memOverflow, _, rfl, rfl, rfl, fun _ _ hf => absurd h3 (by omega)⟩
      · rw [if_neg h3, if_pos (by omega)]
        exact ⟨.sliceOOB, _, rfl, rfl, rfl, fun _ _ _ => rfl⟩

/-- Witness for C10: LOG0 with offset 0 and length 5 against empty
memory fails with the slice panic and appends nothing. -/
theorem c10_logn_oob_witness :
    ∃ e s2, EVM.logn 0 { EVM.new [] with stack := [0, 5] } = .error (e, s2) ∧
      s2.memory = ({ EVM.new [] with stack := [0, 5] } : EVM).memory ∧
      s2.logs = ({ EVM.new [] with stack := [0, 5] } : EVM).logs ∧
      (0 < USIZE → 5 < USIZE → 0 + 5 < USIZE → e = .sliceOOB) :=
  c10_logn_oob { EVM.new [] with stack := [0, 5] } 0 0 5 []
    (by decide) rfl (by decide) (by decide)

end ClaimC10

section ClaimC5

/-- Claim C5: for `n` in `1..32`, a PUSHn opcode byte with at least `n`
immediate bytes remaining pushes the big-endian value of those `n` bytes
(zero-extended to 256 bits, so below `2^256`) and advances `pc` by
exactly `1 + n` in total; with fewer than `n` bytes remaining it fails
with `CodeTruncated` and pushes nothing. -/
theorem c5_push_semantics (keccak : Keccak) (s : EVM) (n : Nat)
    (h1 : 1 ≤ n) (h2 : n ≤ 32) (hpc : s.pc < s.code.length)
    (hop : s.code.getD s.pc 0 = PUSH0 + n)
    (hbytes : ∀ b ∈ s.code, b < 256) :
    (s.pc + 1 + n ≤ s.code.length →
      step keccak s = .ok { s with
        pc := s.pc + 1 + n,
        stack := beVal ((s.code.drop (s.pc + 1)).take n) :: s.stack } ∧
      beVal ((s.code.drop (s.pc + 1)).take n) < W) ∧
    (s.code.length < s.pc + 1 + n →
      step keccak s = .err .codeTruncated { s with pc := s.pc + 1 }) := by
  have hstep : step keccak s = liftH (EVM.push n { s with pc := s.pc + 1 }) := by
    simp only [step, stepOp]
    rw [if_pos hpc, hop]
    rw [if_neg (by simp only [STOP, PUSH0]; omega),
        if_pos (by simp only [PUSH0, PUSH1, PUSH32]; omega)]
    rw [show PUSH0 + n - PUSH1 + 1 = n by simp only [PUSH0, PUSH1]; omega]
  constructor
  · intro hle
    constructor
    · rw [hstep]
      unfold EVM.push
      rw [if_neg (by show ¬ (s.pc + 1 + n > s.code.length); omega)]
      rw [bytes_to_u256_eq_beVal _ (by simp only [List.length_take]; omega)]
      rfl
    · refine lt_of_lt_of_le (beVal_lt _ ?_) ?_
      · intro b hbmem
        exact hbytes b (List.drop_subset _ _ (List.take_subset _ _ hbmem))
      · have hlen : ((s.code.drop (s.pc + 1)).take n).length ≤ 32 := by
          simp only [List.length_take]
          omega
        calc 256 ^ ((s.code.drop (s.pc + 1)).take n).length
            ≤ 256 ^ 32 := Nat.pow_le_pow_right (by norm_num) hlen
          _ = W := by norm_num [W]
  · intro hgt
    rw [hstep]
    unfold EVM.push
    rw [if_pos (by show s.pc + 1 + n > s.code.length; omega)]
    rfl

/-- Witness for C5: PUSH1 0x07 at the start of the two-byte program
`[0x60, 0x07]`. -/
theorem c5_push_semantics_witness :
    (step k0 (EVM.new [0x60, 0x07]) =
      .ok { EVM.new [0x60, 0x07] with
        pc := (EVM.new [0x60, 0x07]).pc + 1 + 1,
        stack := beVal (((EVM.new [0x60, 0x07]).code.drop
          ((EVM.new [0x60, 0x07]).pc + 1)).take 1) :: (EVM.new [0x60, 0x07]).stack } ∧
      beVal (((EVM.new [0x60, 0x07]).code.drop
        ((EVM.new [0x60, 0x07]).pc + 1)).take 1) < W) :=
  (c5_push_semantics k0 (EVM.new [0x60, 0x07]) 1 (by norm_num) (by norm_num)
    (by decide) (by decide) (by decide)).1 (by decide)

end ClaimC5

section ClaimC9

/-- Claim C9: every opcode byte outside the implemented dispatch set —
including `0xA4` (LOG4), which the exclusive `LOG0..LOG4` range arm lets
fall through — is a no-op, not an error: the step succeeds, consumes and
produces nothing, leaves memory, storage and logs unchanged, and only
advances `pc` to the next byte. -/
theorem c9_unknown_opcode_noop (keccak : Keccak) (s : EVM)
    (hpc : s.pc < s.code.length)
    (himp : ¬ implemented (s.code.getD s.pc 0)) :
    step keccak s = .ok { s with pc := s.pc + 1 } ∧ ¬ implemented LOG4 := by
  refine ⟨?_, by decide⟩
  simp only [implemented, not_or] at himp
  obtain ⟨h1, h2, h3, h4, h5, h6, h7, h8, h9, h10, h11, h12, h13, h14, h15, h16, h17, h18, h19, h20, h21, h22, h23, h24, h25, h26, h27, h28, h29, h30, h31, h32, h33, h34, h35, h36, h37, h38, h39, h40, h41⟩ := himp
  simp only [step, stepOp]
  rw [if_pos hpc]
  rw [if_neg h1, if_neg h2, if_neg h3, if_neg h4, if_neg h5, if_neg h6, if_neg h7, if_neg h8, if_neg h9, if_neg h10, if_neg h11, if_neg h12, if_neg h13, if_neg h14, if_neg h15, if_neg h16, if_neg h17, if_neg h18, if_neg h19, if_neg h20, if_neg h21, if_neg h22, if_neg h23, if_neg h24, if_neg h25, if_neg h26, if_neg h27, if_neg h28, if_neg h29, if_neg h30, if_neg h31, if_neg h32, if_neg h33, if_neg h34, if_neg h35, if_neg h36, if_neg h37, if_neg h38, if_neg h39, if_neg h40, if_neg h41]

/-- Witness for C9: executing the unimplemented byte `0xA4` only bumps
`pc`. -/
theorem c9_unknown_opcode_noop_witness :
    step k0 { EVM.new [0xA4] with stack := [1, 2, 3] } =
      .ok { { EVM.new [0xA4] with stack := [1, 2, 3] } with
            pc := ({ EVM.new [0xA4] with stack := [1, 2, 3] } : EVM).pc + 1 } ∧
    ¬ implemented LOG4 :=
  c9_unknown_opcode_noop k0 { EVM.new [0xA4] with stack := [1, 2, 3] }
    (by decide) (by decide)

end ClaimC9

section MemoryMonotone

lemma mem_mono_underflow_judge {n : Nat} {s : EVM} {k : EVM → Hres}
    (hk : s.memory.length ≤ (hstate (k s)).memory.length) :
    s.memory.length ≤ (hstate (EVM.underflow_judge n s k)).memory.length := by
  unfold EVM.underflow_judge
  split
  · exact le_rfl
  · exact hk

lemma popOp_mem_mono (s : EVM) :
    s.memory.length ≤ (hstate (EVM.popOp s)).memory.length := by
  unfold EVM.popOp
  apply mem_mono_underflow_judge
  rcases hst : s.stack with _ | ⟨a, _ | ⟨b, _ | ⟨c, _ | ⟨d, rest⟩⟩⟩⟩ <;>
    simp only [hst] <;> (try split_ifs) <;>
    first
      | exact le_rfl
      | exact le_of_le_of_eq (Nat.le_max_left _ _) (length_resizeTo _ _).symm
      | exact le_trans (le_of_le_of_eq (Nat.le_max_left _ _)
          (length_resizeTo _ _).symm) (le_length_writeBytes _ _ _)

lemma add_mem_mono (s : EVM) :
    s.memory.length ≤ (hstate (EVM.add s)).memory.length := by
  unfold EVM.add
  apply mem_mono_underflow_judge
  rcases hst : s.stack with _ | ⟨a, _ | ⟨b, _ | ⟨c, _ | ⟨d, rest⟩⟩⟩⟩ <;>
    simp only [hst] <;> (try split_ifs) <;>
    first
      | exact le_rfl
      | exact le_of_le_of_eq (Nat.le_max_left _ _) (length_resizeTo _ _).symm
      | exact le_trans (le_of_le_of_eq (Nat.le_max_left _ _)
          (length_resizeTo _ _).symm) (le_length_writeBytes _ _ _)

lemma sub_mem_mono (s : EVM) :
    s.memory.length ≤ (hstate (EVM.sub s)).memory.length := by
  unfold EVM.sub
  apply mem_mono_underflow_judge
  rcases hst : s.stack with _ | ⟨a, _ | ⟨b, _ | ⟨c, _ | ⟨d, rest⟩⟩⟩⟩ <;>
    simp only [hst] <;> (try split_ifs) <;>
    first
      | exact le_rfl
      | exact le_of_le_of_eq (Nat.le_max_left _ _) (length_resizeTo _ _).symm
      | exact le_trans (le_of_le_of_eq (Nat.le_max_left _ _)
          (length_resizeTo _ _).symm) (le_length_writeBytes _ _ _)

lemma mul_mem_mono (s : EVM) :
    s.memory.length ≤ (hstate (EVM.mul s)).memory.length := by
  unfold EVM.mul
  apply mem_mono_underflow_judge
  rcases hst : s.stack with _ | ⟨a, _ | ⟨b, _ | ⟨c, _ | ⟨d, rest⟩⟩⟩⟩ <;>
    simp only [hst] <;> (try split_ifs) <;>
    first
      | exact le_rfl
      | exact le_of_le_of_eq (Nat.le_max_left _ _) (length_resizeTo _ _).symm
      | exact le_trans (le_of_le_of_eq (Nat.le_max_left _ _)
          (length_resizeTo _ _).symm) (le_length_writeBytes _ _ _)

lemma div_mem_mono (s : EVM) :
    s.memory.length ≤ (hstate (EVM.div s)).memory.length := by
  unfold EVM.div
  apply mem_mono_underflow_judge
  rcases hst : s.stack with _ | ⟨a, _ | ⟨b, _ | ⟨c, _ | ⟨d, rest⟩⟩⟩⟩ <;>
    simp only [hst] <;> (try split_ifs) <;>
    first
      | exact le_rfl
      | exact le_of_le_of_eq (Nat.le_max_left _ _) (length_resizeTo _ _).symm
      | exact le_trans (le_of_le_of_eq (Nat.le_max_left _ _)
          (length_resizeTo _ _).symm) (le_length_writeBytes _ _ _)

lemma lt_mem_mono (s : EVM) :
    s.memory.length ≤ (hstate (EVM.lt s)).memory.length := by
  unfold EVM.lt
  apply mem_mono_underflow_judge
  rcases hst : s.stack with _ | ⟨a, _ | ⟨b, _ | ⟨c, _ | ⟨d, rest⟩⟩⟩⟩ <;>
    simp only [hst] <;> (try split_ifs) <;>
    first
      | exact le_rfl
      | exact le_of_le_of_eq (Nat.le_max_left _ _) (length_resizeTo _ _).symm
      | exact le_trans (le_of_le_of_eq (Nat.le_max_left _ _)
          (length_resizeTo _ _).symm) (le_length_writeBytes _ _ _)

lemma gt_mem_mono (s : EVM) :
    s.memory.length ≤ (hstate (EVM.gt s)).memory.length := by
  unfold EVM.gt
  apply mem_mono_underflow_judge
  rcases hst : s.stack with _ | ⟨a, _ | ⟨b, _ | ⟨c, _ | ⟨d, rest⟩⟩⟩⟩ <;>
    simp only [hst] <;> (try split_ifs) <;>
    first
      | exact le_rfl
      | exact le_of_le_of_eq (Nat.le_max_left _ _) (length_resizeTo _ _).symm
      | exact le_trans (le_of_le_of_eq (Nat.le_max_left _ _)
          (length_resizeTo _ _).symm) (le_length_writeBytes _ _ _)

lemma eq_mem_mono (s : EVM) :
    s.memory.length ≤ (hstate (EVM.eq s)).memory.length := by
  unfold EVM.eq
  apply mem_mono_underflow_judge
  rcases hst : s.stack with _ | ⟨a, _ | ⟨b, _ | ⟨c, _ | ⟨d, rest⟩⟩⟩⟩ <;>
    simp only [hst] <;> (try split_ifs) <;>
    first
      | exact le_rfl
      | exact le_of_le_of_eq (Nat.le_max_left _ _) (length_resizeTo _ _).symm
      | exact le_trans (le_of_le_of_eq (Nat.le_max_left _ _)
          (length_resizeTo _ _).symm) (le_length_writeBytes _ _ _)

lemma and_mem_mono (s : EVM) :
    s.memory.length ≤ (hstate (EVM.and s)).memory.length := by
  unfold EVM.and
  apply mem_mono_underflow_judge
  rcases hst : s.stack with _ | ⟨a, _ | ⟨b, _ | ⟨c, _ | ⟨d, rest⟩⟩⟩⟩ <;>
    simp only [hst] <;> (try split_ifs) <;>
    first
      | exact le_rfl
      | exact le_of_le_of_eq (Nat.le_max_left _ _) (length_resizeTo _ _).symm
      | exact le_trans (le_of_le_of_eq (Nat.le_max_left _ _)
          (length_resizeTo _ _).symm) (le_length_writeBytes _ _ _)

lemma or_mem_mono (s : EVM) :
    s.memory.length ≤ (hstate (EVM.or s)).memory.length := by
  unfold EVM.or
  apply mem_mono_underflow_judge
  rcases hst : s.stack with _ | ⟨a, _ | ⟨b, _ | ⟨c, _ | ⟨d, rest⟩⟩⟩⟩ <;>
    simp only [hst] <;> (try split_ifs) <;>
    first
      | exact le_rfl
      | exact le_of_le_of_eq (Nat.le_max_left _ _) (length_resizeTo _ _).symm
      | exact le_trans (le_of_le_of_eq (Nat.le_max_left _ _)
          (length_resizeTo _ _).symm) (le_length_writeBytes _ _ _)

lemma not_mem_mono (s : EVM) :
    s.memory.length ≤ (hstate (EVM.not s)).memory.length := by
  unfold EVM.not
  apply mem_mono_underflow_judge
  rcases hst : s.stack with _ | ⟨a, _ | ⟨b, _ | ⟨c, _ | ⟨d, rest⟩⟩⟩⟩ <;>
    simp only [hst] <;> (try split_ifs) <;>
    first
      | exact le_rfl
      | exact le_of_le_of_eq (Nat.le_max_left _ _) (length_resizeTo _ _).symm
      | exact le_trans (le_of_le_of_eq (Nat.le_max_left _ _)
          (length_resizeTo _ _).symm) (le_length_writeBytes _ _ _)

lemma mstore_mem_mono (s : EVM) :
    s.memory.length ≤ (hstate (EVM.mstore s)).memory.length := by
  unfold EVM.mstore
  apply mem_mono_underflow_judge
  rcases hst : s.stack with _ | ⟨a, _ | ⟨b, _ | ⟨c, _ | ⟨d, rest⟩⟩⟩⟩ <;>
    simp only [hst] <;> (try split_ifs) <;>
    first
      | exact le_rfl
      | exact le_of_le_of_eq (Nat.le_max_left _ _) (length_resizeTo _ _).symm
      | exact le_trans (le_of_le_of_eq (Nat.le_max_left _ _)
          (length_resizeTo _ _).symm) (le_length_writeBytes _ _ _)

lemma mstore8_mem_mono (s : EVM) :
    s.memory.length ≤ (hstate (EVM.mstore8 s)).memory.length := by
  unfold EVM.mstore8
  apply mem_mono_underflow_judge
  rcases hst : s.stack with _ | ⟨a, _ | ⟨b, _ | ⟨c, _ | ⟨d, rest⟩⟩⟩⟩ <;>
    simp only [hst] <;> (try split_ifs) <;>
    first
      | exact le_rfl
      | exact le_of_le_of_eq (Nat.le_max_left _ _) (length_resizeTo _ _).symm
      | exact le_trans (le_of_le_of_eq (Nat.le_max_left _ _)
          (length_resizeTo _ _).symm) (le_length_writeBytes _ _ _)

lemma mload_mem_mono (s : EVM) :
    s.memory.length ≤ (hstate (EVM.mload s)).memory.length := by
  unfold EVM.mload
  apply mem_mono_underflow_judge
  rcases hst : s.stack with _ | ⟨a, _ | ⟨b, _ | ⟨c, _ | ⟨d, rest⟩⟩⟩⟩ <;>
    simp only [hst] <;> (try split_ifs) <;>
    first
      | exact le_rfl
      | exact le_of_le_of_eq (Nat.le_max_left _ _) (length_resizeTo _ _).symm
      | exact le_trans (le_of_le_of_eq (Nat.le_max_left _ _)
          (length_resizeTo _ _).symm) (le_length_writeBytes _ _ _)

lemma sstore_mem_mono (s : EVM) :
    s.memory.length ≤ (hstate (EVM.sstore s)).memory.length := by
  unfold EVM.sstore
  apply mem_mono_underflow_judge
  rcases hst : s.stack with _ | ⟨a, _ | ⟨b, _ | ⟨c, _ | ⟨d, rest⟩⟩⟩⟩ <;>
    simp only [hst] <;> (try split_ifs) <;>
    first
      | exact le_rfl
      | exact le_of_le_of_eq (Nat.le_max_left _ _) (length_resizeTo _ _).symm
      | exact le_trans (le_of_le_of_eq (Nat.le_max_left _ _)
          (length_resizeTo _ _).symm) (le_length_writeBytes _ _ _)

lemma sload_mem_mono (s : EVM) :
    s.memory.length ≤ (hstate (EVM.sload s)).memory.length := by
  unfold EVM.sload
  apply mem_mono_underflow_judge
  rcases hst : s.stack with _ | ⟨a, _ | ⟨b, _ | ⟨c, _ | ⟨d, rest⟩⟩⟩⟩ <;>
    simp only [hst] <;> (try split_ifs) <;>
    first
      | exact le_rfl
      | exact le_of_le_of_eq (Nat.le_max_left _ _) (length_resizeTo _ _).symm
      | exact le_trans (le_of_le_of_eq (Nat.le_max_left _ _)
          (length_resizeTo _ _).symm) (le_length_writeBytes _ _ _)

lemma jump_mem_mono (s : EVM) :
    s.memory.length ≤ (hstate (EVM.jump s)).memory.length := by
  unfold EVM.jump
  apply mem_mono_underflow_judge
  rcases hst : s.stack with _ | ⟨a, _ | ⟨b, _ | ⟨c, _ | ⟨d, rest⟩⟩⟩⟩ <;>
    simp only [hst] <;> (try split_ifs) <;>
    first
      | exact le_rfl
      | exact le_of_le_of_eq (Nat.le_max_left _ _) (length_resizeTo _ _).symm
      | exact le_trans (le_of_le_of_eq (Nat.le_max_left _ _)
          (length_resizeTo _ _).symm) (le_length_writeBytes _ _ _)

lemma jump_i_mem_mono (s : EVM) :
    s.memory.length ≤ (hstate (EVM.jump_i s)).memory.length := by
  unfold EVM.jump_i
  apply mem_mono_underflow_judge
  rcases hst : s.stack with _ | ⟨a, _ | ⟨b, _ | ⟨c, _ | ⟨d, rest⟩⟩⟩⟩ <;>
    simp only [hst] <;> (try split_ifs) <;>
    first
      | exact le_rfl
      | exact le_of_le_of_eq (Nat.le_max_left _ _) (length_resizeTo _ _).symm
      | exact le_trans (le_of_le_of_eq (Nat.le_max_left _ _)
          (length_resizeTo _ _).symm) (le_length_writeBytes _ _ _)

lemma blockhash_mem_mono (s : EVM) :
    s.memory.length ≤ (hstate (EVM.blockhash s)).memory.length := by
  unfold EVM.blockhash
  apply mem_mono_underflow_judge
  rcases hst : s.stack with _ | ⟨a, _ | ⟨b, _ | ⟨c, _ | ⟨d, rest⟩⟩⟩⟩ <;>
    simp only [hst] <;> (try split_ifs) <;>
    first
      | exact le_rfl
      | exact le_of_le_of_eq (Nat.le_max_left _ _) (length_resizeTo _ _).symm
      | exact le_trans (le_of_le_of_eq (Nat.le_max_left _ _)
          (length_resizeTo _ _).symm) (le_length_writeBytes _ _ _)

lemma balance_mem_mono (s : EVM) :
    s.memory.length ≤ (hstate (EVM.balance s)).memory.length := by
  unfold EVM.balance
  apply mem_mono_underflow_judge
  rcases hst : s.stack with _ | ⟨a, _ | ⟨b, _ | ⟨c, _ | ⟨d, rest⟩⟩⟩⟩ <;>
    simp only [hst] <;> (try split_ifs) <;>
    first
      | exact le_rfl
      | exact le_of_le_of_eq (Nat.le_max_left _ _) (length_resizeTo _ _).symm
      | exact le_trans (le_of_le_of_eq (Nat.le_max_left _ _)
          (length_resizeTo _ _).symm) (le_length_writeBytes _ _ _)

lemma extcodesize_mem_mono (s : EVM) :
    s.memory.length ≤ (hstate (EVM.extcodesize s)).memory.length := by
  unfold EVM.extcodesize
  apply mem_mono_underflow_judge
  rcases hst : s.stack with _ | ⟨a, _ | ⟨b, _ | ⟨c, _ | ⟨d, rest⟩⟩⟩⟩ <;>
    simp only [hst] <;> (try split_ifs) <;>
    first
      | exact le_rfl
      | exact le_of_le_of_eq (Nat.le_max_left _ _) (length_resizeTo _ _).symm
      | exact le_trans (le_of_le_of_eq (Nat.le_max_left _ _)
          (length_resizeTo _ _).symm) (le_length_writeBytes _ _ _)

lemma extcodecopy_mem_mono (s : EVM) :
    s.memory.length ≤ (hstate (EVM.extcodecopy s)).memory.length := by
  unfold EVM.extcodecopy
  apply mem_mono_underflow_judge
  rcases hst : s.stack with _ | ⟨a, _ | ⟨b, _ | ⟨c, _ | ⟨d, rest⟩⟩⟩⟩ <;>
    simp only [hst] <;> (try split_ifs) <;>
    first
      | exact le_rfl
      | exact le_of_le_of_eq (Nat.le_max_left _ _) (length_resizeTo _ _).symm
      | exact le_trans (le_of_le_of_eq (Nat.le_max_left _ _)
          (length_resizeTo _ _).symm) (le_length_writeBytes _ _ _)

lemma sha3_mem_mono (keccak : Keccak) (s : EVM) :
    s.memory.length ≤ (hstate (EVM.sha3 keccak s)).memory.length := by
  unfold EVM.sha3
  apply mem_mono_underflow_judge
  rcases hst : s.stack with _ | ⟨a, _ | ⟨b, rest⟩⟩ <;>
    simp only [hst] <;> (try split_ifs) <;>
    first
      | exact le_rfl
      | exact le_of_le_of_eq (Nat.le_max_left _ _) (length_resizeTo _ _).symm

lemma extcodehash_mem_mono (keccak : Keccak) (s : EVM) :
    s.memory.length ≤ (hstate (EVM.extcodehash keccak s)).memory.length := by
  unfold EVM.extcodehash
  apply mem_mono_underflow_judge
  rcases hst : s.stack with _ | ⟨a, rest⟩ <;> simp only [hst] <;> exact le_rfl

lemma logn_mem_mono (n : Nat) (s : EVM) :
    s.memory.length ≤ (hstate (EVM.logn n s)).memory.length := by
  unfold EVM.logn
  apply mem_mono_underflow_judge
  rcases hst : s.stack with _ | ⟨a, _ | ⟨b, rest⟩⟩ <;>
    simp only [hst] <;> (try split_ifs) <;> exact le_rfl

lemma push_mem_mono (size : Nat) (s : EVM) :
    s.memory.length ≤ (hstate (EVM.push size s)).memory.length := by
  unfold EVM.push
  split_ifs <;> exact le_rfl

lemma dup_mem_mono (p : Nat) (s : EVM) :
    s.memory.length ≤ (hstate (EVM.dup p s)).memory.length := by
  unfold EVM.dup
  split
  · exact le_rfl
  · exact mem_mono_underflow_judge le_rfl

lemma swap_mem_mono (p : Nat) (s : EVM) :
    s.memory.length ≤ (hstate (EVM.swap p s)).memory.length := by
  unfold EVM.swap
  exact mem_mono_underflow_judge le_rfl

lemma stepOp_mem_mono (keccak : Keccak) (op : Nat) (s1 : EVM) :
    s1.memory.length ≤ ((stepOp keccak op s1).state).memory.length := by
  unfold stepOp
  by_cases h1 : op = STOP
  · rw [if_pos h1]
    exact le_rfl
  rw [if_neg h1]
  by_cases h2 : PUSH1 ≤ op ∧ op ≤ PUSH32
  · rw [if_pos h2, liftH_state]
    exact push_mem_mono _ _
  rw [if_neg h2]
  by_cases h3 : op = PUSH0
  · rw [if_pos h3]
    exact le_rfl
  rw [if_neg h3]
  by_cases h4 : op = POP
  · rw [if_pos h4, liftH_state]
    exact popOp_mem_mono _
  rw [if_neg h4]
  by_cases h5 : op = ADD
  · rw [if_pos h5, liftH_state]
    exact add_mem_mono _
  rw [if_neg h5]
  by_cases h6 : op = SUB
  · rw [if_pos h6, liftH_state]
    exact sub_mem_mono _
  rw [if_neg h6]
  by_cases h7 : op = MUL
  · rw [if_pos h7, liftH_state]
    exact mul_mem_mono _
  rw [if_neg h7]
  by_cases h8 : op = DIV
  · rw [if_pos h8, liftH_state]
    exact div_mem_mono _
  rw [if_neg h8]
  by_cases h9 : op = LT
  · rw [if_pos h9, liftH_state]
    exact lt_mem_mono _
  rw [if_neg h9]
  by_cases h10 : op = GT
  · rw [if_pos h10, liftH_state]
    exact gt_mem_mono _
  rw [if_neg h10]
  by_cases h11 : op = EQ
  · rw [if_pos h11, liftH_state]
    exact eq_mem_mono _
  rw [if_neg h11]
  by_cases h12 : op = AND
  · rw [if_pos h12, liftH_state]
    exact and_mem_mono _
  rw [if_neg h12]
  by_cases h13 : op = OR
  · rw [if_pos h13, liftH_state]
    exact or_mem_mono _
  rw [if_neg h13]
  by_cases h14 : op = NOT
  · rw [if_pos h14, liftH_state]
    exact not_mem_mono _
  rw [if_neg h14]
  by_cases h15 : op = MSTORE
  · rw [if_pos h15, liftH_state]
    exact mstore_mem_mono _
  rw [if_neg h15]
  by_cases h16 : op = MSTORE8
  · rw [if_pos h16, liftH_state]
    exact mstore8_mem_mono _
  rw [if_neg h16]
  by_cases h17 : op = MLOAD
  · rw [if_pos h17, liftH_state]
    exact mload_mem_mono _
  rw [if_neg h17]
  by_cases h18 : op = MSIZE
  · rw [if_pos h18, liftH_state]
    exact le_rfl
  rw [if_neg h18]
  by_cases h19 : op = SSTORE
  · rw [if_pos h19, liftH_state]
    exact sstore_mem_mono _
  rw [if_neg h19]
  by_cases h20 : op = SLOAD
  · rw [if_pos h20, liftH_state]
    exact sload_mem_mono _
  rw [if_neg h20]
  by_cases h21 : op = JUMPDEST
  · rw [if_pos h21]
    exact le_rfl
  rw [if_neg h21]
  by_cases h22 : op = JUMP
  · rw [if_pos h22, liftH_state]
    exact jump_mem_mono _
  rw [if_neg h22]
  by_cases h23 : op = JUMPI
  · rw [if_pos h23, liftH_state]
    exact jump_i_mem_mono _
  rw [if_neg h23]
  by_cases h24 : op = PC
  · rw [if_pos h24, liftH_state]
    exact le_rfl
  rw [if_neg h24]
  by_cases h25 : op = BLOCKHASH
  · rw [if_pos h25, liftH_state]
    exact blockhash_mem_mono _
  rw [if_neg h25]
  by_cases h26 : op = COINBASE
  · rw [if_pos h26, liftH_state]
    exact le_rfl
  rw [if_neg h26]
  by_cases h27 : op = TIMESTAMP
  · rw [if_pos h27, liftH_state]
    exact le_rfl
  rw [if_neg h27]
  by_cases h28 : op = NUMBER
  · rw [if_pos h28, liftH_state]
    exact le_rfl
  rw [if_neg h28]
  by_cases h29 : op = PREVRANDAO
  · rw [if_pos h29, liftH_state]
    exact le_rfl
  rw [if_neg h29]
  by_cases h30 : op = GASLIMIT
  · rw [if_pos h30, liftH_state]
    exact le_rfl
  rw [if_neg h30]
  by_cases h31 : op = CHAINID
  · rw [if_pos h31, liftH_state]
    exact le_rfl
  rw [if_neg h31]
  by_cases h32 : op = SELFBALANCE
  · rw [if_pos h32, liftH_state]
    exact le_rfl
  rw [if_neg h32]
  by_cases h33 : op = BASEFEE
  · rw [if_pos h33, liftH_state]
    exact le_rfl
  rw [if_neg h33]
  by_cases h34 : DUP1 ≤ op ∧ op ≤ DUP16
  · rw [if_pos h34, liftH_state]
    exact dup_mem_mono _ _
  rw [if_neg h34]
  by_cases h35 : SWAP1 ≤ op ∧ op ≤ SWAP16
  · rw [if_pos h35, liftH_state]
    exact swap_mem_mono _ _
  rw [if_neg h35]
  by_cases h36 : op = SHA3
  · rw [if_pos h36, liftH_state]
    exact sha3_mem_mono _ _
  rw [if_neg h36]
  by_cases h37 : op = BALANCE
  · rw [if_pos h37, liftH_state]
    exact balance_mem_mono _
  rw [if_neg h37]
  by_cases h38 : op = EXTCODESIZE
  · rw [if_pos h38, liftH_state]
    exact extcodesize_mem_mono _
  rw [if_neg h38]
  by_cases h39 : op = EXTCODECOPY
  · rw [if_pos h39, liftH_state]
    exact extcodecopy_mem_mono _
  rw [if_neg h39]
  by_cases h40 : op = EXTCODEHASH
  · rw [if_pos h40, liftH_state]
    exact extcodehash_mem_mono _ _
  rw [if_neg h40]
  by_cases h41 : LOG0 ≤ op ∧ op < LOG4
  · rw [if_pos h41, liftH_state]
    exact logn_mem_mono _ _
  rw [if_neg h41]
  exact le_rfl

lemma step_mem_mono (keccak : Keccak) (s : EVM) :
    s.memory.length ≤ ((step keccak s).state).memory.length := by
  unfold step
  by_cases hpc : s.pc < s.code.length
  · rw [if_pos hpc]
    exact stepOp_mem_mono keccak (s.code.getD s.pc 0) { s with pc := s.pc + 1 }
  · rw [if_neg hpc]
    exact le_rfl

end MemoryMonotone

section ClaimC8

/-- Claim C8: over any number of interpreter steps (any fuel, any start
state), the memory byte vector never shrinks — every opcode either
leaves the memory length unchanged or extends it, including the state
carried out by a fatal error. -/
theorem c8_memory_monotone (keccak : Keccak) (fuel : Nat) (s : EVM) :
    s.memory.length ≤ ((run keccak fuel s).state).memory.length := by
  induction fuel generalizing s with
  | zero => exact le_rfl
  | succ fuel ih =>
    unfold run
    cases hstep : step keccak s with
    | ok s2 =>
        have h1 := step_mem_mono keccak s
        rw [hstep] at h1
        exact le_trans h1 (ih s2)
    | halt s2 =>
        have h1 := step_mem_mono keccak s
        rw [hstep] at h1
        exact h1
    | err e s2 =>
        have h1 := step_mem_mono keccak s
        rw [hstep] at h1
        exact h1

end ClaimC8

end EVMModel
